import Mathlib

set_option maxHeartbeats 1000000

/-!
Shallow embedding of the workflow execution engine of
`graphfusionai/team.py` (class `Team`: `execute_workflow`,
`_execute_workflow_internal`, `_resolve_templates`, `_evaluate_condition`,
`_execute_workflow_step`) together with the relevant surface of
`graphfusionai/agent.py` (class `Agent`).

Modelling conventions:
* Python values flowing through step results are modelled by `Value`
  (None, str, int and dict are the shapes the engine itself inspects).
* Python dicts that the engine mutates (`pending`, `completed`, `failed`,
  `context`) are modelled as insertion-ordered association lists with
  overwrite-in-place semantics, exactly like CPython dicts.
* The agent capability call
  `await asyncio.wait_for(agent.execute_capability(step["task"], step.get("input", {})), ...)`
  is modelled by an oracle `cap : String → String → List (String × Value) → CapOutcome`
  receiving precisely the agent id and the two arguments the code passes;
  its outcome is a returned value, a raised exception message, or an
  `asyncio.TimeoutError`.
* `_evaluate_condition` (a `eval` of a Python expression string) is
  modelled by an oracle `ev : String → List (String × Value) → Bool`.
* The `asyncio.gather` over one round's batch is sequentialised: every
  task writes only the entries keyed by its own step id and reads no
  shared state, so the final contents of the maps are interleaving
  independent.
* Real time is modelled by fuel: one unit per iteration of the
  `while pending:` loop (both executing rounds and the `asyncio.sleep(0.1)`
  busy-wait iterations consume an iteration); the overall
  `asyncio.wait_for(..., timeout=timeout)` of `execute_workflow` elapsing
  is the loop still running when the fuel is exhausted.
* The run state additionally carries two pure logs that no engine
  decision reads: `calls` records each invocation of
  `agent.execute_capability` with the arguments passed, and `dispatched`
  records each step handed to `_execute_workflow_step`.
-/

/-- Python runtime values the engine inspects: None, strings, ints and
dicts (insertion-ordered string-keyed mappings). -/
inductive Value : Type where
  | null : Value
  | str (s : String) : Value
  | int (n : Int) : Value
  | dict (entries : List (String × Value)) : Value

/-- Python `result.get("result")` as used on line 326 of team.py:
for a dict it returns the entry (or None when the key is absent); for a
non-dict receiver the attribute lookup `.get` raises `AttributeError`,
modelled by `Option.none`. -/
def Value.dictGet : Value → String → Option Value
  | Value.dict es, k => some ((((es.find? (fun p => p.1 == k))).map (fun p => p.2)).getD Value.null)
  | _, _ => Option.none

/-- Python type name of a value, as it appears in the
`AttributeError: '<type>' object has no attribute 'get'` message. -/
def Value.typeName : Value → String
  | Value.null => "NoneType"
  | Value.str _ => "str"
  | Value.int _ => "int"
  | Value.dict _ => "dict"

/-- Whether a value is a dict (supports `.get`). -/
def Value.isDict : Value → Bool
  | Value.dict _ => true
  | _ => false

/-- Membership of a key in an insertion-ordered dict (`k in d`). -/
def alHasKey (l : List (String × Value)) (k : String) : Bool :=
  l.any (fun p => p.1 == k)

/-- Python `d.get(k)` returning `some` of the stored value. -/
def alLookup (l : List (String × Value)) (k : String) : Option Value :=
  (l.find? (fun p => p.1 == k)).map (fun p => p.2)

/-- Python `d[k] = v`: overwrite in place if present, append otherwise
(CPython dicts keep the original position of an overwritten key). -/
def alInsert (l : List (String × Value)) (k : String) (v : Value) : List (String × Value) :=
  if alHasKey l k then l.map (fun p => if p.1 == k then (k, v) else p) else l ++ [(k, v)]

/-- A workflow step dict, with the keys `team.py` reads:
`id`, `agent_id`, `task`, `input` (default `{}`), `depends_on`
(default `[]`), `timeout` (default 1.0, only used in the timeout error
message here), `retries` (present in workflow definitions such as
`examples/workflow_demo.py` but never read by the engine), and for the
conditional variant `when`, `then` and `else` (default `[]`). -/
inductive Step : Type where
  | mk (id : String) (agent_id : String) (task : String)
      (input : List (String × Value)) (depends_on : List String)
      (timeout : Option Nat) (retries : Option Nat)
      (when : Option String) (thenSteps : List Step) (elseSteps : List Step) : Step

def Step.id : Step → String
  | Step.mk i _ _ _ _ _ _ _ _ _ => i

def Step.agent_id : Step → String
  | Step.mk _ a _ _ _ _ _ _ _ _ => a

def Step.task : Step → String
  | Step.mk _ _ t _ _ _ _ _ _ _ => t

def Step.input : Step → List (String × Value)
  | Step.mk _ _ _ i _ _ _ _ _ _ => i

def Step.depends_on : Step → List String
  | Step.mk _ _ _ _ d _ _ _ _ _ => d

def Step.timeout : Step → Option Nat
  | Step.mk _ _ _ _ _ t _ _ _ _ => t

def Step.retries : Step → Option Nat
  | Step.mk _ _ _ _ _ _ r _ _ _ => r

def Step.when : Step → Option String
  | Step.mk _ _ _ _ _ _ _ w _ _ => w

def Step.thenSteps : Step → List Step
  | Step.mk _ _ _ _ _ _ _ _ t _ => t

def Step.elseSteps : Step → List Step
  | Step.mk _ _ _ _ _ _ _ _ _ e => e

/-- Rendering of `step.get("timeout", 1.0)` inside the per-step timeout
message; the Python default is the float `1.0`. -/
def Step.timeoutStr (s : Step) : String :=
  match s.timeout with
  | some n => toString n
  | Option.none => "1.0"

/-- Outcome of one awaited `agent.execute_capability(task, input)` call
under `asyncio.wait_for`: a returned value, an `asyncio.TimeoutError`,
or any other raised exception (carrying its `str(e)`). -/
inductive CapOutcome : Type where
  | ok (v : Value) : CapOutcome
  | timedOut : CapOutcome
  | raised (msg : String) : CapOutcome

/-- The `{"error": msg}` dicts stored into `failed`. -/
def errVal (msg : String) : Value :=
  Value.dict [("error", Value.str msg)]

/-- Mutable state of `_execute_workflow_internal`, plus the two pure
logs `calls` (arguments of each `agent.execute_capability` invocation)
and `dispatched` (steps handed to `_execute_workflow_step`). -/
structure WfState : Type where
  pending : List Step
  completed : List (String × Value)
  failed : List (String × Value)
  context : List (String × Value)
  calls : List (String × String × List (String × Value))
  dispatched : List Step

/-- `pending[step["id"]] = step` (dict keyed by id). -/
def pendInsert (p : List Step) (s : Step) : List Step :=
  if p.any (fun t => t.id == s.id) then p.map (fun t => if t.id == s.id then s else t)
  else p ++ [s]

/-- `del pending[step_id]`. -/
def pendDelete (p : List Step) (i : String) : List Step :=
  p.filter (fun t => t.id != i)

/-- `all(dep in completed for dep in step.get("depends_on", []))`. -/
def depsMet (completed : List (String × Value)) (s : Step) : Bool :=
  s.depends_on.all (fun d => alHasKey completed d)

/-- `Team._execute_workflow_step` (team.py lines 311-330): look up the
agent, record `failed` with "Agent ... not found" when absent; otherwise
invoke `agent.execute_capability(step["task"], step.get("input", {}))`
(logged into `calls`) and record the outcome: on a returned value, write
it to `completed[id]` and then write `result.get("result")` to
`context[id]` — when the result is not a dict this second statement
raises `AttributeError`, caught by the generic handler which then also
records `failed[id]`; on `asyncio.TimeoutError` record the
"Step timed out after ...s" error; on any other exception record
`str(e)`. -/
def execute_workflow_step (agents : List String)
    (cap : String → String → List (String × Value) → CapOutcome)
    (st : WfState) (step : Step) : WfState :=
  if (agents.contains step.agent_id) = false then
    { st with failed := alInsert st.failed step.id (errVal ("Agent " ++ step.agent_id ++ " not found")) }
  else
    let st1 := { st with calls := st.calls ++ [(step.id, step.task, step.input)] }
    match cap step.agent_id step.task step.input with
    | CapOutcome.ok v =>
      let comp := alInsert st1.completed step.id v
      match v.dictGet "result" with
      | some r => { st1 with completed := comp, context := alInsert st1.context step.id r }
      | Option.none =>
        { st1 with
          completed := comp
          failed := alInsert st1.failed step.id
            (errVal ("'" ++ v.typeName ++ "' object has no attribute 'get'")) }
    | CapOutcome.timedOut =>
      { st1 with
        failed := alInsert st1.failed step.id
          (errVal ("Step timed out after " ++ step.timeoutStr ++ "s")) }
    | CapOutcome.raised m =>
      { st1 with failed := alInsert st1.failed step.id (errVal m) }

/-- One iteration of the conditional loop (team.py lines 232-241): if the
snapshot step's dependencies are all completed, evaluate `when` against
the context, delete the step from `pending`, and insert the chosen
branch's steps (`then` or `else`, the latter defaulting to `[]`). -/
def expandOne (ev : String → List (String × Value) → Bool)
    (st : WfState) (s : Step) : WfState :=
  if depsMet st.completed s then
    { st with
      pending :=
        (if ev ((s.when).getD "") st.context then s.thenSteps else s.elseSteps).foldl
          pendInsert (pendDelete st.pending s.id) }
  else st

/-- The conditional-expansion phase (team.py lines 230-241): iterate
`expandOne` over the snapshot
`[s for s in pending.values() if "when" in s]`. -/
def expandConditionals (ev : String → List (String × Value) → Bool)
    (snapshot : List Step) (st : WfState) : WfState :=
  snapshot.foldl (expandOne ev) st

/-- The conditional-expansion phase applied to the snapshot taken from
the current pending set. -/
def expandPhase (ev : String → List (String × Value) → Bool) (st : WfState) : WfState :=
  expandConditionals ev (st.pending.filter (fun s => (s.when).isSome)) st

/-- The executable set (team.py lines 244-248): pending steps with all
dependencies completed and no `when` key. -/
def executableOf (st : WfState) : List Step :=
  st.pending.filter (fun s => (s.when).isNone && depsMet st.completed s)

/-- Result of one iteration of the `while pending:` loop: either the
`RuntimeError("Workflow deadlock - no executable steps")` raise, or the
next state. -/
inductive RoundOut : Type where
  | deadlock : RoundOut
  | next (st : WfState) : RoundOut

/-- The state at the start of the batch (team.py lines 259-263): every
executable step is deleted from `pending` and handed to
`_execute_workflow_step` (recorded in the `dispatched` log). -/
def roundBatchStart (st1 : WfState) : WfState :=
  { st1 with
    pending := (executableOf st1).foldl (fun p s => pendDelete p s.id) st1.pending
    dispatched := st1.dispatched ++ executableOf st1 }

/-- The state after the whole batch of one round has run (the
`asyncio.gather`, sequentialised). -/
def roundBatchState (agents : List String)
    (cap : String → String → List (String × Value) → CapOutcome)
    (st1 : WfState) : WfState :=
  (executableOf st1).foldl (execute_workflow_step agents cap) (roundBatchStart st1)

/-- One iteration of the `while pending:` loop of
`_execute_workflow_internal` (team.py lines 227-266): expand
conditionals, compute the executable set; if it is empty either raise
the deadlock error (when no pending step has a truthy `depends_on`) or
sleep and retry; otherwise delete the executable steps from `pending`
and run them all. -/
def oneRound (agents : List String)
    (cap : String → String → List (String × Value) → CapOutcome)
    (ev : String → List (String × Value) → Bool) (st : WfState) : RoundOut :=
  if (executableOf (expandPhase ev st)).isEmpty then
    if (expandPhase ev st).pending.all (fun s => s.depends_on.isEmpty) then RoundOut.deadlock
    else RoundOut.next (expandPhase ev st)
  else RoundOut.next (roundBatchState agents cap (expandPhase ev st))

/-- Result of running `_execute_workflow_internal` under the overall
deadline: normal termination with the final state, the deadlock raise,
or the deadline elapsing while the loop is still running. -/
inductive RunResult : Type where
  | finished (st : WfState) : RunResult
  | deadlock : RunResult
  | fuelOut : RunResult

/-- The `while pending:` loop, with fuel as the overall deadline: the
loop exits normally as soon as `pending` is empty; if the fuel runs out
first (the `asyncio.wait_for` deadline elapses during the loop), the run
is a timeout. -/
def runRounds (agents : List String)
    (cap : String → String → List (String × Value) → CapOutcome)
    (ev : String → List (String × Value) → Bool) : Nat → WfState → RunResult
  | 0, st => if st.pending.isEmpty then RunResult.finished st else RunResult.fuelOut
  | fuel + 1, st =>
    if st.pending.isEmpty then RunResult.finished st
    else
      match oneRound agents cap ev st with
      | RoundOut.deadlock => RunResult.deadlock
      | RoundOut.next st' => runRounds agents cap ev fuel st'

/-- Status derivation of `execute_workflow` (team.py lines 208-213):
`if not results["failed"]: completed; elif results["completed"]: partial;
else: failed`. -/
def deriveStatus (completed failed : List (String × Value)) : String :=
  if failed.isEmpty then "completed"
  else if !completed.isEmpty then "partial"
  else "failed"

/-- The dict returned by `execute_workflow`. -/
structure WorkflowResult : Type where
  status : String
  completed : List (String × Value)
  failed : List (String × Value)

/-- `Team.execute_workflow` (team.py lines 192-217) started from a given
loop state: on normal termination derive the status from the final maps;
on `asyncio.TimeoutError` return `{"status": "timeout", "completed": {},
"failed": {}}`; the deadlock `RuntimeError` propagates to the caller
(modelled by `Except.error`). -/
def execute_workflow_from (agents : List String)
    (cap : String → String → List (String × Value) → CapOutcome)
    (ev : String → List (String × Value) → Bool)
    (fuel : Nat) (st : WfState) : Except String WorkflowResult :=
  match runRounds agents cap ev fuel st with
  | RunResult.finished s =>
    Except.ok { status := deriveStatus s.completed s.failed
                completed := s.completed
                failed := s.failed }
  | RunResult.deadlock => Except.error "Workflow deadlock - no executable steps"
  | RunResult.fuelOut => Except.ok { status := "timeout", completed := [], failed := [] }

/-- `pending = {step["id"]: step for step in workflow["steps"]}` with
empty `completed`/`failed`/`context` and empty logs. -/
def initState (steps : List Step) : WfState :=
  { pending := steps.foldl pendInsert []
    completed := []
    failed := []
    context := []
    calls := []
    dispatched := [] }

/-- `Team.execute_workflow` on a workflow definition. -/
def execute_workflow (agents : List String)
    (cap : String → String → List (String × Value) → CapOutcome)
    (ev : String → List (String × Value) → Bool)
    (fuel : Nat) (steps : List Step) : Except String WorkflowResult :=
  execute_workflow_from agents cap ev fuel (initState steps)

/-- Python `str.startswith`: `pre` is a character-wise prefix of the
second argument (modelled structurally over the character lists). -/
def pyPrefixEq : List Char → List Char → Bool
  | [], _ => true
  | _ :: _, [] => false
  | a :: as, b :: bs => a == b && pyPrefixEq as bs

/-- The whitespace characters removed by Python `str.strip()` (the ASCII
ones, which are the only ones arising here). -/
def pyIsSpace (c : Char) : Bool :=
  c == ' ' || c == '\t' || c == '\n' || c == '\x0b' || c == '\x0c' || c == '\r'

/-- Python `str.strip()` over the character list. -/
def pyStrip (l : List Char) : List Char :=
  ((l.dropWhile pyIsSpace).reverse.dropWhile pyIsSpace).reverse

/-- `Team._resolve_templates` (team.py lines 271-280): for each entry,
a string value satisfying `value.startswith("\x7b\x7b") and
value.endswith("\x7d\x7d")` has `var_name = value[2:-2].strip()` taken and the
entry becomes `context.get(var_name, value)`; every other value passes
through unchanged. Python string methods are modelled character-wise. -/
def resolve_templates (input_data : List (String × Value))
    (context : List (String × Value)) : List (String × Value) :=
  input_data.map (fun p =>
    match p.2 with
    | Value.str s =>
      if pyPrefixEq ("\x7b\x7b".data) s.data &&
          pyPrefixEq ("\x7d\x7d".data.reverse) s.data.reverse then
        let var_name := String.mk (pyStrip ((s.data.drop 2).dropLast.dropLast))
        (p.1, (alLookup context var_name).getD p.2)
      else p
    | _ => p)

/-- The methods defined on class `Agent` in `graphfusionai/agent.py`
(lines 24-147). -/
def Agent.methodNames : List String :=
  ["__init__", "assign_to_team", "add_capability", "execute_task",
   "request_help", "send_message", "receive_message", "store_memory",
   "recall_memory", "contribute_to_knowledge_graph", "load_state", "save_state"]

/-- The capability-call behaviour of an agent of the library's own
`Agent` class: `agent.execute_capability(...)` performs an attribute
lookup against the methods the class defines; since `execute_capability`
is not among them, the call raises `AttributeError` (caught inside the
`try` of `_execute_workflow_step`). -/
def agentClassCap (_agent_id _task : String)
    (_input : List (String × Value)) : CapOutcome :=
  if Agent.methodNames.contains "execute_capability" then CapOutcome.ok Value.null
  else CapOutcome.raised "'Agent' object has no attribute 'execute_capability'"

/-- One observation step of the loop for stating invariants: a state
with empty `pending` (loop exited) or a deadlock raise is left fixed. -/
def stepState (agents : List String)
    (cap : String → String → List (String × Value) → CapOutcome)
    (ev : String → List (String × Value) → Bool) (st : WfState) : WfState :=
  if st.pending.isEmpty then st
  else
    match oneRound agents cap ev st with
    | RoundOut.deadlock => st
    | RoundOut.next st' => st'

/-- The loop state after `n` iterations of `while pending:`. -/
def iterState (agents : List String)
    (cap : String → String → List (String × Value) → CapOutcome)
    (ev : String → List (String × Value) → Bool) : Nat → WfState → WfState
  | 0, st => st
  | n + 1, st => iterState agents cap ev n (stepState agents cap ev st)

/-! ### Concrete fixtures used by the claim theorems and witnesses -/

/-- A loop state in which a round makes no progress: the pending set is
non-empty, no step is executable, every pending step has a non-empty
`depends_on`, and no pending conditional step has all its dependencies
completed (so the expansion phase is a no-op). -/
def SpinState (st : WfState) : Prop :=
  st.pending.isEmpty = false ∧
  (executableOf st).isEmpty = true ∧
  (∀ s ∈ st.pending, s.depends_on.isEmpty = false) ∧
  (∀ s ∈ st.pending, (s.when).isSome = true → depsMet st.completed s = false)

instance (st : WfState) : Decidable (SpinState st) := by
  unfold SpinState
  infer_instance

/-- A concrete (non-conditional) step with only the always-read keys. -/
def mkStep (i a t : String) (inp : List (String × Value)) (deps : List String) : Step :=
  Step.mk i a t inp deps Option.none Option.none Option.none [] []

def agentsFix : List String := ["agent1", "agent2"]

/-- Capability behaviour of the `test_parallel_failure` fixture of
`tests/test_workflows.py`: task "fail" raises, any other task returns a
result dict. -/
def capFix (_agent_id : String) (task : String)
    (_input : List (String × Value)) : CapOutcome :=
  if task == "fail" then CapOutcome.raised "boom"
  else CapOutcome.ok (Value.dict [("result", Value.int 1)])

def evFalse (_c : String) (_ctx : List (String × Value)) : Bool := false

def evTrue (_c : String) (_ctx : List (String × Value)) : Bool := true

/-- The workflow of `test_parallel_failure`: two independent steps, one
failing, and a third depending on both. -/
def failWf : List Step :=
  [mkStep "step1" "agent1" "execute" [] [],
   mkStep "step2" "agent2" "fail" [] [],
   mkStep "step3" "agent1" "execute" [] ["step1", "step2"]]

def wfOk : List Step := [mkStep "s1" "agent1" "execute" [] []]

/-- Final state of running `wfOk`. -/
def stOkFinal : WfState :=
  { pending := []
    completed := [("s1", Value.dict [("result", Value.int 1)])]
    failed := []
    context := [("s1", Value.int 1)]
    calls := [("s1", "execute", [])]
    dispatched := [mkStep "s1" "agent1" "execute" [] []] }

def stepA : Step := mkStep "A" "agent1" "execute" [] []

def stepT : Step := mkStep "T" "agent1" "execute" [] []

def condC2 : Step := Step.mk "C2" "" "" [] ["A"] Option.none Option.none (some "cond") [stepT] []

def condC1 : Step := Step.mk "C1" "" "" [] ["A"] Option.none Option.none (some "cond") [condC2] []

def nestedCondWf : List Step := [stepA, condC1]

def spinStateW : WfState :=
  { pending := [mkStep "b" "agent1" "execute" [] ["a"]]
    completed := []
    failed := []
    context := []
    calls := []
    dispatched := [] }

/-- A capability that fails on every attempt. -/
def capFail (_agent_id _task : String) (_input : List (String × Value)) : CapOutcome :=
  CapOutcome.raised "always fails"

/-- A single dependency-free step carrying an arbitrary `retries` value
(the dict key the engine never reads). -/
def stepWithRetries (r : Option Nat) : Step :=
  Step.mk "r1" "agent1" "t" [] [] Option.none r Option.none [] []

/-- A capability pair observing its input: "produce" returns the value
"V", "echo" returns the exact input map it received. -/
def capEcho (_agent_id : String) (task : String)
    (inp : List (String × Value)) : CapOutcome :=
  if task == "produce" then CapOutcome.ok (Value.dict [("result", Value.str "V")])
  else CapOutcome.ok (Value.dict [("result", Value.dict inp)])

/-- A producer step feeding a consumer whose input holds the template
reference to the producer's result. -/
def tmplWf : List Step :=
  [mkStep "s1" "agent1" "produce" [] [],
   mkStep "s2" "agent1" "echo" [("x", Value.str "\x7b\x7bs1\x7d\x7d")] ["s1"]]

def condT : Step := mkStep "true_step" "agent1" "execute" [] []

def condF : Step := mkStep "false_step" "agent2" "execute" [] []

/-- The conditional step of `test_conditional_workflow` /
Scenario B. -/
def condStepB : Step :=
  Step.mk "cond_step" "" "" [] [] Option.none Option.none (some "1 == 1") [condT] [condF]

/-- The dual conditional step whose `when` expression the fixture
evaluator sends to false, selecting the `else` branch. -/
def condStepF : Step :=
  Step.mk "cond_step2" "" "" [] [] Option.none Option.none (some "1 == 2") [condT] [condF]

def evC6 (c : String) (_ctx : List (String × Value)) : Bool := c == "1 == 1"

/-- A capability returning a bare (non-dict) Python value. -/
def capInt (_agent_id _task : String) (_input : List (String × Value)) : CapOutcome :=
  CapOutcome.ok (Value.int 5)

/-! ### Helper lemmas about the dict model -/

theorem alHasKey_alInsert_self (l : List (String × Value)) (k : String) (v : Value) :
    alHasKey (alInsert l k v) k = true := by
  unfold alInsert
  cases h : alHasKey l k with
  | true =>
    rw [if_pos rfl]
    unfold alHasKey at h ⊢
    simp only [List.any_eq_true] at h ⊢
    obtain ⟨p, hp, hpk⟩ := h
    exact ⟨(k, v), List.mem_map.mpr ⟨p, hp, by simp [hpk]⟩, by simp⟩
  | false =>
    rw [if_neg (by simp)]
    unfold alHasKey
    simp

theorem alHasKey_alInsert_mono (l : List (String × Value)) (k k' : String) (v : Value)
    (h : alHasKey l k' = true) : alHasKey (alInsert l k v) k' = true := by
  unfold alInsert
  cases hk : alHasKey l k with
  | true =>
    rw [if_pos rfl]
    unfold alHasKey at h ⊢
    simp only [List.any_eq_true] at h ⊢
    obtain ⟨p, hp, hpk⟩ := h
    refine ⟨if p.1 == k then (k, v) else p, List.mem_map.mpr ⟨p, hp, rfl⟩, ?_⟩
    by_cases hpk' : p.1 = k
    · simp only [hpk', beq_self_eq_true, if_true]
      simp only [beq_iff_eq] at hpk
      simp [← hpk', hpk]
    · simp [hpk', hpk]
  | false =>
    rw [if_neg (by simp)]
    unfold alHasKey at h ⊢
    simp only [List.any_eq_true] at h ⊢
    obtain ⟨p, hp, hpk⟩ := h
    exact ⟨p, List.mem_append_left _ hp, hpk⟩

theorem mem_alInsert (l : List (String × Value)) (k : String) (v : Value) (p : String × Value)
    (h : p ∈ alInsert l k v) : p = (k, v) ∨ p ∈ l := by
  unfold alInsert at h
  cases hk : alHasKey l k with
  | true =>
    rw [hk, if_pos rfl] at h
    obtain ⟨q, hq, hqe⟩ := List.mem_map.mp h
    by_cases hq1 : q.1 = k
    · simp only [hq1, beq_self_eq_true, if_true] at hqe
      exact Or.inl hqe.symm
    · simp only [beq_iff_eq, if_neg hq1] at hqe
      exact Or.inr (hqe ▸ hq)
  | false =>
    rw [hk, if_neg (by simp)] at h
    rw [List.mem_append, List.mem_singleton] at h
    rcases h with h | h
    · exact Or.inr h
    · exact Or.inl h

/-! ### Per-step lemmas about the step executor -/

theorem execute_workflow_step_dispatched (agents : List String)
    (cap : String → String → List (String × Value) → CapOutcome) (st : WfState) (s : Step) :
    (execute_workflow_step agents cap st s).dispatched = st.dispatched := by
  unfold execute_workflow_step
  split
  · rfl
  · split
    · split <;> rfl
    · rfl
    · rfl

theorem execute_workflow_step_pending (agents : List String)
    (cap : String → String → List (String × Value) → CapOutcome) (st : WfState) (s : Step) :
    (execute_workflow_step agents cap st s).pending = st.pending := by
  unfold execute_workflow_step
  split
  · rfl
  · split
    · split <;> rfl
    · rfl
    · rfl

theorem execute_workflow_step_completed_cases (agents : List String)
    (cap : String → String → List (String × Value) → CapOutcome) (st : WfState) (s : Step) :
    (execute_workflow_step agents cap st s).completed = st.completed ∨
      ∃ v, (execute_workflow_step agents cap st s).completed = alInsert st.completed s.id v := by
  unfold execute_workflow_step
  split
  · exact Or.inl rfl
  · split
    · split
      · exact Or.inr ⟨_, rfl⟩
      · exact Or.inr ⟨_, rfl⟩
    · exact Or.inl rfl
    · exact Or.inl rfl

theorem execute_workflow_step_failed_cases (agents : List String)
    (cap : String → String → List (String × Value) → CapOutcome) (st : WfState) (s : Step) :
    (execute_workflow_step agents cap st s).failed = st.failed ∨
      ∃ v, (execute_workflow_step agents cap st s).failed = alInsert st.failed s.id v := by
  unfold execute_workflow_step
  split
  · exact Or.inr ⟨_, rfl⟩
  · split
    · split
      · exact Or.inl rfl
      · exact Or.inr ⟨_, rfl⟩
    · exact Or.inr ⟨_, rfl⟩
    · exact Or.inr ⟨_, rfl⟩

theorem execute_workflow_step_completed_mono (agents : List String)
    (cap : String → String → List (String × Value) → CapOutcome) (st : WfState) (s : Step)
    (k : String) (h : alHasKey st.completed k = true) :
    alHasKey (execute_workflow_step agents cap st s).completed k = true := by
  rcases execute_workflow_step_completed_cases agents cap st s with hc | ⟨v, hc⟩
  · rw [hc]; exact h
  · rw [hc]; exact alHasKey_alInsert_mono _ _ _ _ h

theorem execute_workflow_step_failed_mono (agents : List String)
    (cap : String → String → List (String × Value) → CapOutcome) (st : WfState) (s : Step)
    (k : String) (h : alHasKey st.failed k = true) :
    alHasKey (execute_workflow_step agents cap st s).failed k = true := by
  rcases execute_workflow_step_failed_cases agents cap st s with hc | ⟨v, hc⟩
  · rw [hc]; exact h
  · rw [hc]; exact alHasKey_alInsert_mono _ _ _ _ h

theorem execute_workflow_step_completed_new (agents : List String)
    (cap : String → String → List (String × Value) → CapOutcome) (st : WfState) (s : Step)
    (p : String × Value) (hp : p ∈ (execute_workflow_step agents cap st s).completed) :
    p ∈ st.completed ∨ p.1 = s.id := by
  rcases execute_workflow_step_completed_cases agents cap st s with hc | ⟨v, hc⟩
  · rw [hc] at hp; exact Or.inl hp
  · rw [hc] at hp
    rcases mem_alInsert _ _ _ _ hp with h | h
    · exact Or.inr (by rw [h])
    · exact Or.inl h

/-! ### The busy-wait fixpoint of the round loop -/

theorem expandConditionals_no_op (ev : String → List (String × Value) → Bool)
    (snap : List Step) (st : WfState)
    (h : ∀ s ∈ snap, depsMet st.completed s = false) :
    expandConditionals ev snap st = st := by
  induction snap with
  | nil => rfl
  | cons s l ih =>
    unfold expandConditionals
    rw [List.foldl_cons]
    have hs : depsMet st.completed s = false := h s (List.mem_cons_self _ _)
    have h1 : expandOne ev st s = st := by
      unfold expandOne
      rw [hs]
      simp
    rw [h1]
    exact ih (fun t ht => h t (List.mem_cons_of_mem _ ht))

theorem oneRound_spin (agents : List String)
    (cap : String → String → List (String × Value) → CapOutcome)
    (ev : String → List (String × Value) → Bool) (st : WfState)
    (h : SpinState st) : oneRound agents cap ev st = RoundOut.next st := by
  obtain ⟨hne, hex, hdep, hcond⟩ := h
  have hexp : expandPhase ev st = st := by
    unfold expandPhase
    apply expandConditionals_no_op
    intro s hs
    have := List.of_mem_filter hs
    exact hcond s (List.mem_of_mem_filter hs) this
  have hall : (st.pending.all (fun s => s.depends_on.isEmpty)) = false := by
    cases hp : st.pending with
    | nil => rw [hp] at hne; simp at hne
    | cons s l =>
      apply List.all_eq_false.mpr
      refine ⟨s, List.mem_cons_self _ _, ?_⟩
      have hd := hdep s (by rw [hp]; exact List.mem_cons_self _ _)
      simp [hd]
  unfold oneRound
  rw [hexp, hex, if_pos rfl, hall, if_neg (by simp)]

theorem runRounds_spin (agents : List String)
    (cap : String → String → List (String × Value) → CapOutcome)
    (ev : String → List (String × Value) → Bool) (st : WfState)
    (h : SpinState st) :
    ∀ fuel, runRounds agents cap ev fuel st = RunResult.fuelOut := by
  intro fuel
  induction fuel with
  | zero =>
    unfold runRounds
    rw [h.1]
    simp
  | succ n ih =>
    unfold runRounds
    rw [h.1]
    simp only [Bool.false_eq_true, if_false]
    rw [oneRound_spin agents cap ev st h]
    exact ih

/-! ### Concrete fixtures used by the claim theorems -/

/-- C1: the spec (and the repository's own test `test_parallel_failure`)
say an individual step failure is non-fatal: the run terminates normally,
the step whose dependency failed is silently dropped, and the status is
"partial". On the code, a pending step whose dependency is in `failed`
keeps the round loop spinning (`asyncio.sleep(0.1)` and retry) until the
overall deadline elapses, so `execute_workflow` returns status "timeout"
with both maps empty for every deadline, discarding the recorded
progress (step1 completed, step2 failed after the first round). -/
theorem c1_failed_dependency_spins_to_timeout :
    (∀ fuel, execute_workflow agentsFix capFix evFalse fuel failWf =
      Except.ok { status := "timeout", completed := [], failed := [] }) ∧
    alHasKey (iterState agentsFix capFix evFalse 1 (initState failWf)).completed "step1" = true ∧
    alHasKey (iterState agentsFix capFix evFalse 1 (initState failWf)).failed "step2" = true := by
  refine ⟨?_, by decide, by decide⟩
  intro fuel
  cases fuel with
  | zero => rfl
  | succ n =>
    unfold execute_workflow execute_workflow_from
    have h1 : runRounds agentsFix capFix evFalse (n + 1) (initState failWf)
        = runRounds agentsFix capFix evFalse n
            (stepState agentsFix capFix evFalse (initState failWf)) := rfl
    rw [h1, runRounds_spin _ _ _ _ (by decide) n]

/-- C4: on normal termination of the round loop, the returned status is
the pure function `deriveStatus` of the final maps, and it satisfies the
spec's three-way characterisation: "completed" iff `failed` is empty,
"partial" iff both maps are non-empty, "failed" iff `completed` is empty
and `failed` is not. -/
theorem c4_status_pure_function_of_final_maps (agents : List String)
    (cap : String → String → List (String × Value) → CapOutcome)
    (ev : String → List (String × Value) → Bool)
    (fuel : Nat) (steps : List Step) (st : WfState)
    (h : runRounds agents cap ev fuel (initState steps) = RunResult.finished st) :
    execute_workflow agents cap ev fuel steps =
      Except.ok { status := deriveStatus st.completed st.failed
                  completed := st.completed
                  failed := st.failed } ∧
    (deriveStatus st.completed st.failed = "completed" ↔ st.failed = []) ∧
    (deriveStatus st.completed st.failed = "partial" ↔ (st.completed ≠ [] ∧ st.failed ≠ [])) ∧
    (deriveStatus st.completed st.failed = "failed" ↔ (st.completed = [] ∧ st.failed ≠ [])) := by
  refine ⟨by unfold execute_workflow execute_workflow_from; rw [h], ?_, ?_, ?_⟩ <;>
  · unfold deriveStatus
    cases hf : st.failed <;> cases hc : st.completed <;> simp

theorem c4_witness :
    runRounds agentsFix capFix evFalse 1 (initState wfOk) = RunResult.finished stOkFinal ∧
    execute_workflow agentsFix capFix evFalse 1 wfOk =
      Except.ok { status := deriveStatus stOkFinal.completed stOkFinal.failed
                  completed := stOkFinal.completed
                  failed := stOkFinal.failed } :=
  ⟨rfl, (c4_status_pure_function_of_final_maps agentsFix capFix evFalse 1 wfOk stOkFinal rfl).1⟩

/-- C5: whenever the overall deadline elapses while the round loop is
still running, `execute_workflow` returns status "timeout" with both
`completed` and `failed` empty, regardless of partial progress. -/
theorem c5_timeout_empty_maps (agents : List String)
    (cap : String → String → List (String × Value) → CapOutcome)
    (ev : String → List (String × Value) → Bool)
    (fuel : Nat) (steps : List Step)
    (h : runRounds agents cap ev fuel (initState steps) = RunResult.fuelOut) :
    execute_workflow agents cap ev fuel steps =
      Except.ok { status := "timeout", completed := [], failed := [] } := by
  unfold execute_workflow execute_workflow_from
  rw [h]

theorem c5_witness :
    runRounds agentsFix capFix evFalse 3 (initState failWf) = RunResult.fuelOut ∧
    execute_workflow agentsFix capFix evFalse 3 failWf =
      Except.ok { status := "timeout", completed := [], failed := [] } :=
  ⟨rfl, c5_timeout_empty_maps agentsFix capFix evFalse 3 failWf rfl⟩

/-! ### C10: nested-conditional counterexample and amended spin theorem -/

/-- C10 counterexample: after one round of `nestedCondWf` the loop state
has an empty executable set and every pending step has a non-empty
`depends_on` (the state the claim quantifies over), yet the run is not a
timeout: the pending conditional expands over the following rounds and
the workflow terminates normally with status "completed". -/
theorem c10_counterexample_conditional_escapes_spin :
    ((executableOf (iterState agentsFix capFix evTrue 1 (initState nestedCondWf))).isEmpty = true ∧
     (iterState agentsFix capFix evTrue 1 (initState nestedCondWf)).pending.isEmpty = false ∧
     (iterState agentsFix capFix evTrue 1 (initState nestedCondWf)).pending.all
        (fun s => !s.depends_on.isEmpty) = true) ∧
    execute_workflow agentsFix capFix evTrue 4 nestedCondWf =
      Except.ok { status := "completed"
                  completed := [("A", Value.dict [("result", Value.int 1)]),
                                ("T", Value.dict [("result", Value.int 1)])]
                  failed := [] } :=
  ⟨⟨by decide, by decide, by decide⟩, rfl⟩

/-- C10 (amended): from any loop state in which additionally no pending
conditional step has all its dependencies completed (`SpinState`), a
round is an exact fixpoint: the loop sleeps and retries forever, never
terminates and never raises the deadlock error, so for every finite
overall deadline `execute_workflow` returns status "timeout" with both
maps empty. -/
theorem c10_amended_spin_state_never_terminates (agents : List String)
    (cap : String → String → List (String × Value) → CapOutcome)
    (ev : String → List (String × Value) → Bool)
    (st : WfState) (h : SpinState st) :
    oneRound agents cap ev st = RoundOut.next st ∧
    (∀ fuel, runRounds agents cap ev fuel st = RunResult.fuelOut) ∧
    (∀ fuel, execute_workflow_from agents cap ev fuel st =
      Except.ok { status := "timeout", completed := [], failed := [] }) := by
  refine ⟨oneRound_spin _ _ _ _ h, runRounds_spin _ _ _ _ h, ?_⟩
  intro fuel
  unfold execute_workflow_from
  rw [runRounds_spin _ _ _ _ h fuel]

theorem c10_amended_witness :
    SpinState spinStateW ∧
    execute_workflow_from agentsFix capFix evFalse 9 spinStateW =
      Except.ok { status := "timeout", completed := [], failed := [] } :=
  ⟨by decide, (c10_amended_spin_state_never_terminates agentsFix capFix evFalse spinStateW (by decide)).2.2 9⟩

/-! ### C2: retries are never honoured -/

/-- C2 counterexample: a step with `retries = 2` whose capability always
fails finishes with its id in `failed` after a `calls` log holding
exactly ONE invocation of `agent.execute_capability` — not the 3 total
attempts (1 + 2 retries) the claim requires. -/
theorem c2_counterexample_one_attempt_not_three :
    runRounds agentsFix capFail evFalse 1 (initState [stepWithRetries (some 2)]) =
      RunResult.finished
        { pending := []
          completed := []
          failed := [("r1", errVal "always fails")]
          context := []
          calls := [("r1", "t", [])]
          dispatched := [stepWithRetries (some 2)] } ∧
    ([("r1", "t", ([] : List (String × Value)))].countP (fun c => c.1 == "r1") = 1 ∧
      (1 : Nat) ≠ 3) :=
  ⟨rfl, by decide, by decide⟩

/-- C2 (amended): `_execute_workflow_step` contains no retry logic and
never reads `retries`: for every value of the `retries` key, a failing
dependency-free step is attempted exactly once (one entry in the
invocation log) and its error is recorded in `failed` immediately. -/
theorem c2_amended_exactly_one_attempt_regardless_of_retries (r : Option Nat) :
    runRounds agentsFix capFail evFalse 1 (initState [stepWithRetries r]) =
      RunResult.finished
        { pending := []
          completed := []
          failed := [("r1", errVal "always fails")]
          context := []
          calls := [("r1", "t", [])]
          dispatched := [stepWithRetries r] } :=
  rfl

/-! ### C3: the template resolver is never invoked -/

/-- C3 counterexample: although the context holds `s1 -> "V"` when step
s2 runs, the capability receives the raw input containing the literal
template string (visible both in the invocation log and in the echoed
result), while `_resolve_templates` applied to that input and context
would have produced the substituted map — so the executor does not
resolve templates before invoking the capability. -/
theorem c3_counterexample_capability_gets_literal_template :
    runRounds agentsFix capEcho evFalse 2 (initState tmplWf) =
      RunResult.finished
        { pending := []
          completed := [("s1", Value.dict [("result", Value.str "V")]),
                        ("s2", Value.dict [("result", Value.dict [("x", Value.str "\x7b\x7bs1\x7d\x7d")])])]
          failed := []
          context := [("s1", Value.str "V"), ("s2", Value.dict [("x", Value.str "\x7b\x7bs1\x7d\x7d")])]
          calls := [("s1", "produce", []), ("s2", "echo", [("x", Value.str "\x7b\x7bs1\x7d\x7d")])]
          dispatched := [mkStep "s1" "agent1" "produce" [] [],
                         mkStep "s2" "agent1" "echo" [("x", Value.str "\x7b\x7bs1\x7d\x7d")] ["s1"]] } ∧
    resolve_templates [("x", Value.str "\x7b\x7bs1\x7d\x7d")] [("s1", Value.str "V")] =
      [("x", Value.str "V")] ∧
    ("\x7b\x7bs1\x7d\x7d" : String) ≠ "V" :=
  ⟨rfl, rfl, by decide⟩

/-- C3 (amended): the step executor passes `step["task"]` and the raw
`step.get("input", {})` verbatim to `agent.execute_capability` whenever
the agent is registered — `_resolve_templates` is defined but never
invoked; the resolver itself, applied directly, does substitute a value
of the exact form "\x7b\x7bstepId\x7d\x7d" whose stepId is a context key, leaves a
reference absent from the context as the literal template string, and
passes non-template values through unchanged. -/
theorem c3_amended_capability_receives_raw_input (agents : List String)
    (cap : String → String → List (String × Value) → CapOutcome)
    (st : WfState) (step : Step)
    (h : agents.contains step.agent_id = true) :
    (execute_workflow_step agents cap st step).calls =
      st.calls ++ [(step.id, step.task, step.input)] ∧
    resolve_templates [("x", Value.str "\x7b\x7bs1\x7d\x7d")] [("s1", Value.str "V")] =
      [("x", Value.str "V")] ∧
    resolve_templates [("x", Value.str "\x7b\x7bmissing\x7d\x7d")] [("s1", Value.str "V")] =
      [("x", Value.str "\x7b\x7bmissing\x7d\x7d")] ∧
    resolve_templates [("x", Value.str "plain"), ("y", Value.int 3)] [("s1", Value.str "V")] =
      [("x", Value.str "plain"), ("y", Value.int 3)] := by
  refine ⟨?_, rfl, rfl, rfl⟩
  unfold execute_workflow_step
  rw [if_neg (by rw [h]; simp)]
  split
  · split
    · rfl
    · rfl
  · rfl
  · rfl

theorem c3_amended_witness :
    agentsFix.contains "agent1" = true ∧
    (execute_workflow_step agentsFix capEcho (initState [])
        (mkStep "s2" "agent1" "echo" [("x", Value.str "\x7b\x7bs1\x7d\x7d")] [])).calls =
      (initState []).calls ++
        [((mkStep "s2" "agent1" "echo" [("x", Value.str "\x7b\x7bs1\x7d\x7d")] []).id,
          (mkStep "s2" "agent1" "echo" [("x", Value.str "\x7b\x7bs1\x7d\x7d")] []).task,
          (mkStep "s2" "agent1" "echo" [("x", Value.str "\x7b\x7bs1\x7d\x7d")] []).input)] :=
  ⟨by decide,
    (c3_amended_capability_receives_raw_input agentsFix capEcho (initState [])
      (mkStep "s2" "agent1" "echo" [("x", Value.str "\x7b\x7bs1\x7d\x7d")] []) (by decide)).1⟩


/-! ### C8: exactly one of completed/failed per executor return -/

theorem Value.dictGet_isSome_of_isDict (v : Value) (k : String) (h : v.isDict = true) :
    (v.dictGet k).isSome = true := by
  cases v with
  | dict es => rfl
  | null => simp [Value.isDict] at h
  | str s => simp [Value.isDict] at h
  | int n => simp [Value.isDict] at h

/-- C8 counterexample: when the capability returns a non-dict value, the
executor records `completed[id]` and then `result.get("result")` raises
`AttributeError`, whose handler also records `failed[id]` — the step id
ends up in BOTH maps, violating the exactly-one contract. -/
theorem c8_counterexample_id_in_both_maps :
    runRounds agentsFix capInt evFalse 1 (initState [mkStep "n1" "agent1" "t" [] []]) =
      RunResult.finished
        { pending := []
          completed := [("n1", Value.int 5)]
          failed := [("n1", errVal "'int' object has no attribute 'get'")]
          context := []
          calls := [("n1", "t", [])]
          dispatched := [mkStep "n1" "agent1" "t" [] []] } ∧
    alHasKey [("n1", Value.int 5)] "n1" = true ∧
    alHasKey [("n1", errVal "'int' object has no attribute 'get'")] "n1" = true :=
  ⟨rfl, by decide, by decide⟩

/-- C8 (amended): provided every value the capability can return for
this step is a dict (supports `.get`), one executor return populates
exactly one of `completed[id]` / `failed[id]` for a fresh step id —
never both, never neither; without the dict proviso the non-dict case
of the counterexample populates both. -/
theorem c8_amended_exactly_one_if_result_is_dict (agents : List String)
    (cap : String → String → List (String × Value) → CapOutcome)
    (st : WfState) (step : Step)
    (hc : alHasKey st.completed step.id = false)
    (hf : alHasKey st.failed step.id = false)
    (hdict : ∀ v, cap step.agent_id step.task step.input = CapOutcome.ok v → v.isDict = true) :
    (alHasKey (execute_workflow_step agents cap st step).completed step.id = true ∧
     alHasKey (execute_workflow_step agents cap st step).failed step.id = false) ∨
    (alHasKey (execute_workflow_step agents cap st step).completed step.id = false ∧
     alHasKey (execute_workflow_step agents cap st step).failed step.id = true) := by
  unfold execute_workflow_step
  split
  · exact Or.inr ⟨hc, alHasKey_alInsert_self _ _ _⟩
  · split
    · rename_i v heq
      split
      · exact Or.inl ⟨alHasKey_alInsert_self _ _ _, hf⟩
      · rename_i heq2
        have hs := Value.dictGet_isSome_of_isDict v "result" (hdict v heq)
        rw [heq2] at hs
        simp at hs
    · exact Or.inr ⟨hc, alHasKey_alInsert_self _ _ _⟩
    · exact Or.inr ⟨hc, alHasKey_alInsert_self _ _ _⟩

theorem c8_amended_witness :
    alHasKey (initState []).completed "w1" = false ∧
    ((alHasKey (execute_workflow_step agentsFix capFix (initState [])
        (mkStep "w1" "agent1" "execute" [] [])).completed "w1" = true ∧
      alHasKey (execute_workflow_step agentsFix capFix (initState [])
        (mkStep "w1" "agent1" "execute" [] [])).failed "w1" = false) ∨
     (alHasKey (execute_workflow_step agentsFix capFix (initState [])
        (mkStep "w1" "agent1" "execute" [] [])).completed "w1" = false ∧
      alHasKey (execute_workflow_step agentsFix capFix (initState [])
        (mkStep "w1" "agent1" "execute" [] [])).failed "w1" = true)) :=
  ⟨by decide,
    c8_amended_exactly_one_if_result_is_dict agentsFix capFix (initState [])
      (mkStep "w1" "agent1" "execute" [] []) (by decide) (by decide)
      (fun v hv => by
        have hv' : CapOutcome.ok (Value.dict [("result", Value.int 1)]) = CapOutcome.ok v := hv
        injection hv' with h2
        rw [← h2]
        rfl)⟩

/-! ### Field preservation through the phases of a round -/

theorem expandOne_fields (ev : String → List (String × Value) → Bool) (st : WfState) (s : Step) :
    (expandOne ev st s).completed = st.completed ∧
    (expandOne ev st s).failed = st.failed ∧
    (expandOne ev st s).dispatched = st.dispatched := by
  unfold expandOne
  split
  · exact ⟨rfl, rfl, rfl⟩
  · exact ⟨rfl, rfl, rfl⟩

theorem expandConditionals_fields (ev : String → List (String × Value) → Bool)
    (snap : List Step) (st : WfState) :
    (expandConditionals ev snap st).completed = st.completed ∧
    (expandConditionals ev snap st).failed = st.failed ∧
    (expandConditionals ev snap st).dispatched = st.dispatched := by
  induction snap generalizing st with
  | nil => exact ⟨rfl, rfl, rfl⟩
  | cons s rest ih =>
    obtain ⟨h1, h2, h3⟩ := expandOne_fields ev st s
    obtain ⟨g1, g2, g3⟩ := ih (expandOne ev st s)
    rw [show expandConditionals ev (s :: rest) st
        = expandConditionals ev rest (expandOne ev st s) from rfl]
    exact ⟨g1.trans h1, g2.trans h2, g3.trans h3⟩

theorem expandPhase_fields (ev : String → List (String × Value) → Bool) (st : WfState) :
    (expandPhase ev st).completed = st.completed ∧
    (expandPhase ev st).failed = st.failed ∧
    (expandPhase ev st).dispatched = st.dispatched :=
  expandConditionals_fields ev (st.pending.filter (fun s => (s.when).isSome)) st

/-- Every iteration of `while pending:` either leaves the state fixed
(loop exit or deadlock raise), sleeps after a pure conditional-expansion
phase, or runs the batch of the round. -/
theorem stepState_cases (agents : List String)
    (cap : String → String → List (String × Value) → CapOutcome)
    (ev : String → List (String × Value) → Bool) (st : WfState) :
    stepState agents cap ev st = st ∨
    stepState agents cap ev st = expandPhase ev st ∨
    stepState agents cap ev st = roundBatchState agents cap (expandPhase ev st) := by
  unfold stepState
  split
  · exact Or.inl rfl
  · cases ho : oneRound agents cap ev st with
    | deadlock => exact Or.inl rfl
    | next st' =>
      unfold oneRound at ho
      split at ho
      · split at ho
        · cases ho
        · cases ho
          exact Or.inr (Or.inl rfl)
      · cases ho
        exact Or.inr (Or.inr rfl)

theorem foldl_exec_completed_mono (agents : List String)
    (cap : String → String → List (String × Value) → CapOutcome)
    (l : List Step) (st : WfState) (k : String)
    (h : alHasKey st.completed k = true) :
    alHasKey (l.foldl (execute_workflow_step agents cap) st).completed k = true := by
  induction l generalizing st with
  | nil => exact h
  | cons s rest ih =>
    rw [List.foldl_cons]
    exact ih _ (execute_workflow_step_completed_mono agents cap st s k h)

theorem stepState_completed_mono (agents : List String)
    (cap : String → String → List (String × Value) → CapOutcome)
    (ev : String → List (String × Value) → Bool) (st : WfState) (k : String)
    (h : alHasKey st.completed k = true) :
    alHasKey (stepState agents cap ev st).completed k = true := by
  rcases stepState_cases agents cap ev st with hc | hc | hc <;> rw [hc]
  · exact h
  · rw [(expandPhase_fields ev st).1]
    exact h
  · unfold roundBatchState
    exact foldl_exec_completed_mono agents cap _ _ k
      (show alHasKey (expandPhase ev st).completed k = true by
        rw [(expandPhase_fields ev st).1]; exact h)

theorem iterState_succ_out (agents : List String)
    (cap : String → String → List (String × Value) → CapOutcome)
    (ev : String → List (String × Value) → Bool) (n : Nat) (st : WfState) :
    iterState agents cap ev (n + 1) st = stepState agents cap ev (iterState agents cap ev n st) := by
  induction n generalizing st with
  | zero => rfl
  | succ m ih =>
    show iterState agents cap ev (m + 1) (stepState agents cap ev st) = _
    rw [ih (stepState agents cap ev st)]
    rfl

theorem depsMet_mono (c c' : List (String × Value)) (s : Step)
    (h : ∀ k, alHasKey c k = true → alHasKey c' k = true) (hd : depsMet c s = true) :
    depsMet c' s = true := by
  unfold depsMet at hd ⊢
  rw [List.all_eq_true] at hd ⊢
  exact fun d hdm => h d (hd d hdm)

/-! ### The dependency-gating invariant -/

theorem foldl_exec_deps_inv (agents : List String)
    (cap : String → String → List (String × Value) → CapOutcome)
    (l : List Step) (st : WfState)
    (hA : ∀ p ∈ st.completed, ∃ s ∈ st.dispatched, s.id = p.1)
    (hB : ∀ s ∈ st.dispatched, depsMet st.completed s = true)
    (hl : ∀ s ∈ l, s ∈ st.dispatched) :
    (l.foldl (execute_workflow_step agents cap) st).dispatched = st.dispatched ∧
    (∀ p ∈ (l.foldl (execute_workflow_step agents cap) st).completed,
        ∃ s ∈ st.dispatched, s.id = p.1) ∧
    (∀ s ∈ st.dispatched,
        depsMet (l.foldl (execute_workflow_step agents cap) st).completed s = true) := by
  induction l generalizing st with
  | nil => exact ⟨rfl, hA, hB⟩
  | cons s rest ih =>
    rw [List.foldl_cons]
    have hdisp := execute_workflow_step_dispatched agents cap st s
    have hA' : ∀ p ∈ (execute_workflow_step agents cap st s).completed,
        ∃ t ∈ (execute_workflow_step agents cap st s).dispatched, t.id = p.1 := by
      intro p hp
      rw [hdisp]
      rcases execute_workflow_step_completed_new agents cap st s p hp with hmem | hid
      · exact hA p hmem
      · exact ⟨s, hl s (List.mem_cons_self _ _), hid.symm⟩
    have hB' : ∀ t ∈ (execute_workflow_step agents cap st s).dispatched,
        depsMet (execute_workflow_step agents cap st s).completed t = true := by
      intro t ht
      rw [hdisp] at ht
      exact depsMet_mono _ _ t
        (fun k hk => execute_workflow_step_completed_mono agents cap st s k hk) (hB t ht)
    have hl' : ∀ t ∈ rest, t ∈ (execute_workflow_step agents cap st s).dispatched := by
      intro t ht
      rw [hdisp]
      exact hl t (List.mem_cons_of_mem _ ht)
    obtain ⟨i1, i2, i3⟩ := ih (execute_workflow_step agents cap st s) hA' hB' hl'
    refine ⟨i1.trans hdisp, ?_, ?_⟩
    · intro p hp
      obtain ⟨t, ht, hte⟩ := i2 p hp
      rw [hdisp] at ht
      exact ⟨t, ht, hte⟩
    · intro t ht
      exact i3 t (by rw [hdisp]; exact ht)

theorem executableOf_mem_depsMet (st1 : WfState) (s : Step)
    (h : s ∈ executableOf st1) : depsMet st1.completed s = true := by
  unfold executableOf at h
  have h2 := List.of_mem_filter h
  rw [Bool.and_eq_true] at h2
  exact h2.2

theorem roundBatchState_deps_inv (agents : List String)
    (cap : String → String → List (String × Value) → CapOutcome) (st1 : WfState)
    (hA : ∀ p ∈ st1.completed, ∃ s ∈ st1.dispatched, s.id = p.1)
    (hB : ∀ s ∈ st1.dispatched, depsMet st1.completed s = true) :
    (∀ p ∈ (roundBatchState agents cap st1).completed,
        ∃ s ∈ (roundBatchState agents cap st1).dispatched, s.id = p.1) ∧
    (∀ s ∈ (roundBatchState agents cap st1).dispatched,
        depsMet (roundBatchState agents cap st1).completed s = true) := by
  have hstart_d : (roundBatchStart st1).dispatched = st1.dispatched ++ executableOf st1 := rfl
  have hstart_c : (roundBatchStart st1).completed = st1.completed := rfl
  have hfold := foldl_exec_deps_inv agents cap (executableOf st1) (roundBatchStart st1)
    (by
      intro p hp
      rw [hstart_c] at hp
      obtain ⟨s, hs, hse⟩ := hA p hp
      exact ⟨s, by rw [hstart_d]; exact List.mem_append_left _ hs, hse⟩)
    (by
      intro s hs
      rw [hstart_d] at hs
      rw [hstart_c]
      rcases List.mem_append.mp hs with hsl | hsr
      · exact hB s hsl
      · exact executableOf_mem_depsMet st1 s hsr)
    (by
      intro s hs
      rw [hstart_d]
      exact List.mem_append_right _ hs)
  obtain ⟨i1, i2, i3⟩ := hfold
  unfold roundBatchState
  refine ⟨?_, ?_⟩
  · intro p hp
    obtain ⟨s, hs, hse⟩ := i2 p hp
    exact ⟨s, by rw [i1]; exact hs, hse⟩
  · intro s hs
    rw [i1] at hs
    exact i3 s hs

theorem stepState_deps_inv (agents : List String)
    (cap : String → String → List (String × Value) → CapOutcome)
    (ev : String → List (String × Value) → Bool) (st : WfState)
    (hA : ∀ p ∈ st.completed, ∃ s ∈ st.dispatched, s.id = p.1)
    (hB : ∀ s ∈ st.dispatched, depsMet st.completed s = true) :
    (∀ p ∈ (stepState agents cap ev st).completed,
        ∃ s ∈ (stepState agents cap ev st).dispatched, s.id = p.1) ∧
    (∀ s ∈ (stepState agents cap ev st).dispatched,
        depsMet (stepState agents cap ev st).completed s = true) := by
  obtain ⟨e1, e2, e5⟩ := expandPhase_fields ev st
  have hA1 : ∀ p ∈ (expandPhase ev st).completed,
      ∃ s ∈ (expandPhase ev st).dispatched, s.id = p.1 := by
    intro p hp
    rw [e1] at hp
    obtain ⟨s, hs, hse⟩ := hA p hp
    exact ⟨s, by rw [e5]; exact hs, hse⟩
  have hB1 : ∀ s ∈ (expandPhase ev st).dispatched,
      depsMet (expandPhase ev st).completed s = true := by
    intro s hs
    rw [e5] at hs
    rw [e1]
    exact hB s hs
  rcases stepState_cases agents cap ev st with hc | hc | hc <;> rw [hc]
  · exact ⟨hA, hB⟩
  · exact ⟨hA1, hB1⟩
  · exact roundBatchState_deps_inv agents cap (expandPhase ev st) hA1 hB1

/-- C7: throughout every workflow run — at every iteration of the round
loop, for every capability and condition behaviour — every entry of
`completed` carries the id of a dispatched step all of whose
`dependsOn` ids are keys of `completed`, and the key set of `completed`
only grows from one iteration to the next. -/
theorem c7_dependency_gating_invariant (agents : List String)
    (cap : String → String → List (String × Value) → CapOutcome)
    (ev : String → List (String × Value) → Bool) (steps : List Step) (n : Nat) :
    (∀ p ∈ (iterState agents cap ev n (initState steps)).completed,
        ∃ s ∈ (iterState agents cap ev n (initState steps)).dispatched,
          s.id = p.1 ∧ depsMet (iterState agents cap ev n (initState steps)).completed s = true) ∧
    (∀ k, alHasKey (iterState agents cap ev n (initState steps)).completed k = true →
        alHasKey (iterState agents cap ev (n + 1) (initState steps)).completed k = true) := by
  have main : ∀ m st,
      (∀ p ∈ st.completed, ∃ s ∈ st.dispatched, s.id = p.1) →
      (∀ s ∈ st.dispatched, depsMet st.completed s = true) →
      (∀ p ∈ (iterState agents cap ev m st).completed,
          ∃ s ∈ (iterState agents cap ev m st).dispatched, s.id = p.1) ∧
      (∀ s ∈ (iterState agents cap ev m st).dispatched,
          depsMet (iterState agents cap ev m st).completed s = true) := by
    intro m
    induction m with
    | zero => intro st hA hB; exact ⟨hA, hB⟩
    | succ k ih =>
      intro st hA hB
      have hstep := stepState_deps_inv agents cap ev st hA hB
      exact ih (stepState agents cap ev st) hstep.1 hstep.2
  have hinit1 : ∀ p ∈ (initState steps).completed,
      ∃ s ∈ (initState steps).dispatched, s.id = p.1 := by
    intro p hp
    rw [show (initState steps).completed = [] from rfl] at hp
    exact absurd hp (List.not_mem_nil p)
  have hinit2 : ∀ s ∈ (initState steps).dispatched,
      depsMet (initState steps).completed s = true := by
    intro s hs
    rw [show (initState steps).dispatched = [] from rfl] at hs
    exact absurd hs (List.not_mem_nil s)
  obtain ⟨hA, hB⟩ := main n (initState steps) hinit1 hinit2
  refine ⟨?_, ?_⟩
  · intro p hp
    obtain ⟨s, hs, hse⟩ := hA p hp
    exact ⟨s, hs, hse, hB s hs⟩
  · intro k hk
    rw [iterState_succ_out]
    exact stepState_completed_mono agents cap ev _ k hk

theorem c7_witness :
    alHasKey (iterState agentsFix capFix evFalse 1 (initState wfOk)).completed "s1" = true ∧
    alHasKey (iterState agentsFix capFix evFalse 2 (initState wfOk)).completed "s1" = true :=
  ⟨by decide, (c7_dependency_gating_invariant agentsFix capFix evFalse wfOk 1).2 "s1" (by decide)⟩

/-! ### C9: the Agent class defines no execute_capability -/

theorem agentClassCap_raises (a t : String) (i : List (String × Value)) :
    agentClassCap a t i =
      CapOutcome.raised "'Agent' object has no attribute 'execute_capability'" := rfl

theorem execute_workflow_step_agentClassCap (agents : List String) (st : WfState) (s : Step) :
    (execute_workflow_step agents agentClassCap st s).completed = st.completed ∧
    alHasKey (execute_workflow_step agents agentClassCap st s).failed s.id = true ∧
    (∀ k, alHasKey st.failed k = true →
      alHasKey (execute_workflow_step agents agentClassCap st s).failed k = true) := by
  unfold execute_workflow_step
  split
  · exact ⟨rfl, alHasKey_alInsert_self _ _ _, fun k hk => alHasKey_alInsert_mono _ _ _ _ hk⟩
  · exact ⟨rfl, alHasKey_alInsert_self _ _ _, fun k hk => alHasKey_alInsert_mono _ _ _ _ hk⟩

theorem foldl_agentClassCap_inv (agents : List String) (l : List Step) (st : WfState)
    (hc : st.completed = [])
    (hd : ∀ s ∈ st.dispatched, alHasKey st.failed s.id = true ∨ s ∈ l) :
    (l.foldl (execute_workflow_step agents agentClassCap) st).completed = [] ∧
    (l.foldl (execute_workflow_step agents agentClassCap) st).dispatched = st.dispatched ∧
    (∀ s ∈ st.dispatched,
        alHasKey (l.foldl (execute_workflow_step agents agentClassCap) st).failed s.id = true) := by
  induction l generalizing st with
  | nil =>
    refine ⟨hc, rfl, ?_⟩
    intro s hs
    rcases hd s hs with h | h
    · exact h
    · exact absurd h (List.not_mem_nil s)
  | cons s rest ih =>
    rw [List.foldl_cons]
    obtain ⟨j1, j2, j3⟩ := execute_workflow_step_agentClassCap agents st s
    have hdisp := execute_workflow_step_dispatched agents agentClassCap st s
    have hc' : (execute_workflow_step agents agentClassCap st s).completed = [] := j1.trans hc
    have hd' : ∀ t ∈ (execute_workflow_step agents agentClassCap st s).dispatched,
        alHasKey (execute_workflow_step agents agentClassCap st s).failed t.id = true ∨
          t ∈ rest := by
      intro t ht
      rw [hdisp] at ht
      rcases hd t ht with h | h
      · exact Or.inl (j3 t.id h)
      · rcases List.mem_cons.mp h with he | hr
        · exact Or.inl (by rw [he]; exact j2)
        · exact Or.inr hr
    obtain ⟨i1, i2, i3⟩ := ih (execute_workflow_step agents agentClassCap st s) hc' hd'
    refine ⟨i1, i2.trans hdisp, ?_⟩
    intro t ht
    exact i3 t (by rw [hdisp]; exact ht)

theorem stepState_agentClassCap_inv (agents : List String)
    (ev : String → List (String × Value) → Bool) (st : WfState)
    (hc : st.completed = [])
    (hd : ∀ s ∈ st.dispatched, alHasKey st.failed s.id = true) :
    (stepState agents agentClassCap ev st).completed = [] ∧
    ∀ s ∈ (stepState agents agentClassCap ev st).dispatched,
      alHasKey (stepState agents agentClassCap ev st).failed s.id = true := by
  obtain ⟨e1, e2, e5⟩ := expandPhase_fields ev st
  have hc1 : (expandPhase ev st).completed = [] := e1.trans hc
  have hd1 : ∀ s ∈ (expandPhase ev st).dispatched,
      alHasKey (expandPhase ev st).failed s.id = true := by
    intro s hs
    rw [e5] at hs
    rw [e2]
    exact hd s hs
  rcases stepState_cases agents agentClassCap ev st with hcs | hcs | hcs <;> rw [hcs]
  · exact ⟨hc, hd⟩
  · exact ⟨hc1, hd1⟩
  · have hstart_d : (roundBatchStart (expandPhase ev st)).dispatched =
        (expandPhase ev st).dispatched ++ executableOf (expandPhase ev st) := rfl
    have hfold := foldl_agentClassCap_inv agents (executableOf (expandPhase ev st))
      (roundBatchStart (expandPhase ev st))
      (show (roundBatchStart (expandPhase ev st)).completed = [] from hc1)
      (by
        intro s hs
        rw [hstart_d] at hs
        rcases List.mem_append.mp hs with hsl | hsr
        · exact Or.inl (show alHasKey (expandPhase ev st).failed s.id = true from hd1 s hsl)
        · exact Or.inr hsr)
    obtain ⟨i1, i2, i3⟩ := hfold
    unfold roundBatchState
    refine ⟨i1, ?_⟩
    intro s hs
    rw [i2] at hs
    exact i3 s hs

/-- C9: with agents of the library's own `Agent` class (which defines no
method named `execute_capability`), every capability invocation raises
`AttributeError` and is caught by the executor's failure branch: at every
iteration of the round loop, for every agent registry, condition
behaviour and workflow, `completed` is empty and every dispatched step's
id is recorded in `failed`. -/
theorem c9_agent_class_all_steps_fail (agents : List String)
    (ev : String → List (String × Value) → Bool) (steps : List Step) (n : Nat) :
    (iterState agents agentClassCap ev n (initState steps)).completed = [] ∧
    ∀ s ∈ (iterState agents agentClassCap ev n (initState steps)).dispatched,
      alHasKey (iterState agents agentClassCap ev n (initState steps)).failed s.id = true := by
  have main : ∀ m st, st.completed = [] →
      (∀ s ∈ st.dispatched, alHasKey st.failed s.id = true) →
      (iterState agents agentClassCap ev m st).completed = [] ∧
      ∀ s ∈ (iterState agents agentClassCap ev m st).dispatched,
        alHasKey (iterState agents agentClassCap ev m st).failed s.id = true := by
    intro m
    induction m with
    | zero => intro st hc hd; exact ⟨hc, hd⟩
    | succ k ih =>
      intro st hc hd
      have hstep := stepState_agentClassCap_inv agents ev st hc hd
      exact ih (stepState agents agentClassCap ev st) hstep.1 hstep.2
  refine main n (initState steps) rfl ?_
  intro s hs
  rw [show (initState steps).dispatched = [] from rfl] at hs
  exact absurd hs (List.not_mem_nil s)

theorem c9_witness :
    (iterState agentsFix agentClassCap evFalse 1 (initState wfOk)).completed = [] ∧
    alHasKey (iterState agentsFix agentClassCap evFalse 1 (initState wfOk)).failed "s1" = true :=
  ⟨(c9_agent_class_all_steps_fail agentsFix evFalse wfOk 1).1,
    (c9_agent_class_all_steps_fail agentsFix evFalse wfOk 1).2
      (mkStep "s1" "agent1" "execute" [] []) (List.Mem.head _)⟩

/-! ### C6: conditional expansion -/
theorem foldl_exec_dispatched (agents : List String)
    (cap : String → String → List (String × Value) → CapOutcome)
    (l : List Step) (st : WfState) :
    (l.foldl (execute_workflow_step agents cap) st).dispatched = st.dispatched := by
  induction l generalizing st with
  | nil => rfl
  | cons s rest ih =>
    rw [List.foldl_cons]
    exact (ih _).trans (execute_workflow_step_dispatched agents cap st s)

theorem executableOf_mem_when_isNone (st : WfState) (s : Step)
    (h : s ∈ executableOf st) : (s.when).isNone = true := by
  unfold executableOf at h
  have h2 := List.of_mem_filter h
  rw [Bool.and_eq_true] at h2
  exact h2.1

theorem stepState_dispatched_when (agents : List String)
    (cap : String → String → List (String × Value) → CapOutcome)
    (ev : String → List (String × Value) → Bool) (st : WfState)
    (h : ∀ s ∈ st.dispatched, (s.when).isNone = true) :
    ∀ s ∈ (stepState agents cap ev st).dispatched, (s.when).isNone = true := by
  obtain ⟨_, _, e5⟩ := expandPhase_fields ev st
  rcases stepState_cases agents cap ev st with hc | hc | hc <;> rw [hc]
  · exact h
  · intro s hs
    rw [e5] at hs
    exact h s hs
  · intro s hs
    unfold roundBatchState at hs
    rw [foldl_exec_dispatched] at hs
    rw [show (roundBatchStart (expandPhase ev st)).dispatched
        = (expandPhase ev st).dispatched ++ executableOf (expandPhase ev st) from rfl] at hs
    rcases List.mem_append.mp hs with hl | hr
    · rw [e5] at hl
      exact h s hl
    · exact executableOf_mem_when_isNone _ s hr

theorem pendDelete_no_id (p : List Step) (i : String) :
    ((pendDelete p i).any (fun t => t.id == i)) = false := by
  unfold pendDelete
  rw [List.any_eq_false]
  intro t ht
  have h2 := List.of_mem_filter ht
  simp only [bne_iff_ne, ne_eq] at h2
  simp [h2]

theorem pendInsert_no_id (p : List Step) (s : Step) (i : String) (hne : s.id ≠ i)
    (h : (p.any (fun t => t.id == i)) = false) :
    ((pendInsert p s).any (fun t => t.id == i)) = false := by
  unfold pendInsert
  split
  · rw [List.any_eq_false] at h ⊢
    intro t ht
    obtain ⟨q, hq, hqe⟩ := List.mem_map.mp ht
    subst hqe
    by_cases hq1 : q.id = s.id
    · simp [hq1, hne]
    · rw [if_neg (by simp [hq1])]
      exact h q hq
  · rw [List.any_append, h]
    simp [hne]

theorem foldl_pendInsert_no_id (branch : List Step) (p : List Step) (i : String)
    (hb : ∀ b ∈ branch, b.id ≠ i) (h : (p.any (fun t => t.id == i)) = false) :
    ((branch.foldl pendInsert p).any (fun t => t.id == i)) = false := by
  induction branch generalizing p with
  | nil => exact h
  | cons b rest ih =>
    rw [List.foldl_cons]
    exact ih (pendInsert p b) (fun x hx => hb x (List.mem_cons_of_mem _ hx))
      (pendInsert_no_id p b i (hb b (List.mem_cons_self _ _)) h)

/-- C6: for every pending conditional step whose dependencies are all
completed, the expansion phase replaces it in the pending set by the
steps of `then` when its `when` expression evaluates true and of `else`
(default empty list) when false; once expanded (with branch ids distinct
from its own) its id is no longer a pending key, so it is expanded
exactly once and never re-evaluated; a conditional step is never
executed — the executable set, and hence the `dispatched` log of every
run for every capability and evaluator, holds only condition-free
steps; and concretely, the Scenario B workflow (`when = "1 == 1"`,
`then = [T]`, `else = [F]`) yields T in `completed` with F and the
conditional absent from both maps, while the dual false-condition
workflow yields the `else` branch with the `then` branch absent. -/
theorem c6_conditional_expansion_general :
    (∀ (ev : String → List (String × Value) → Bool) (st : WfState) (s : Step),
        (s.when).isSome = true → depsMet st.completed s = true →
        (expandOne ev st s).pending =
          (if ev ((s.when).getD "") st.context then s.thenSteps else s.elseSteps).foldl
            pendInsert (pendDelete st.pending s.id)) ∧
    (∀ (st : WfState) (s : Step), s ∈ executableOf st → (s.when).isNone = true) ∧
    (∀ (agents : List String) (cap : String → String → List (String × Value) → CapOutcome)
        (ev : String → List (String × Value) → Bool) (steps : List Step) (n : Nat),
        ∀ s ∈ (iterState agents cap ev n (initState steps)).dispatched,
          (s.when).isNone = true) ∧
    (∀ (ev : String → List (String × Value) → Bool) (st : WfState) (s : Step),
        depsMet st.completed s = true →
        (∀ b ∈ (if ev ((s.when).getD "") st.context then s.thenSteps else s.elseSteps),
            b.id ≠ s.id) →
        ((expandOne ev st s).pending.any (fun t => t.id == s.id)) = false) ∧
    (∀ ev : String → List (String × Value) → Bool, ev "1 == 1" [] = true →
        execute_workflow agentsFix capFix ev 2 [condStepB] =
          Except.ok { status := "completed"
                      completed := [("true_step", Value.dict [("result", Value.int 1)])]
                      failed := [] } ∧
        alHasKey [("true_step", Value.dict [("result", Value.int 1)])] "false_step" = false ∧
        alHasKey [("true_step", Value.dict [("result", Value.int 1)])] "cond_step" = false) ∧
    (∀ ev : String → List (String × Value) → Bool, ev "1 == 2" [] = false →
        execute_workflow agentsFix capFix ev 2 [condStepF] =
          Except.ok { status := "completed"
                      completed := [("false_step", Value.dict [("result", Value.int 1)])]
                      failed := [] } ∧
        alHasKey [("false_step", Value.dict [("result", Value.int 1)])] "true_step" = false ∧
        alHasKey [("false_step", Value.dict [("result", Value.int 1)])] "cond_step2" = false) := by
  refine ⟨?_, ?_, ?_, ?_, ?_, ?_⟩
  · intro ev st s _hw hd
    unfold expandOne
    rw [if_pos hd]
  · intro st s h
    exact executableOf_mem_when_isNone st s h
  · intro agents cap ev steps n
    have main : ∀ m st, (∀ s ∈ st.dispatched, (s.when).isNone = true) →
        ∀ s ∈ (iterState agents cap ev m st).dispatched, (s.when).isNone = true := by
      intro m
      induction m with
      | zero => intro st h; exact h
      | succ k ih =>
        intro st h
        exact ih _ (stepState_dispatched_when agents cap ev st h)
    refine main n (initState steps) ?_
    intro s hs
    rw [show (initState steps).dispatched = [] from rfl] at hs
    exact absurd hs (List.not_mem_nil s)
  · intro ev st s hd hb
    unfold expandOne
    rw [if_pos hd]
    exact foldl_pendInsert_no_id _ _ _ hb (pendDelete_no_id st.pending s.id)
  · intro ev h
    refine ⟨?_, by decide, by decide⟩
    have hexp : expandPhase ev (initState [condStepB]) =
        { pending := [condT]
          completed := []
          failed := []
          context := []
          calls := []
          dispatched := [] } := by
      show expandOne ev (initState [condStepB]) condStepB = _
      unfold expandOne
      rw [if_pos (show depsMet (initState [condStepB]).completed condStepB = true from rfl),
        show ((condStepB.when).getD "") = "1 == 1" from rfl,
        show (initState [condStepB]).context = ([] : List (String × Value)) from rfl, h]
      rfl
    have hone : oneRound agentsFix capFix ev (initState [condStepB]) =
        RoundOut.next
          { pending := []
            completed := [("true_step", Value.dict [("result", Value.int 1)])]
            failed := []
            context := [("true_step", Value.int 1)]
            calls := [("true_step", "execute", [])]
            dispatched := [condT] } := by
      unfold oneRound
      rw [hexp]
      rfl
    have hrun : runRounds agentsFix capFix ev 2 (initState [condStepB]) =
        RunResult.finished
          { pending := []
            completed := [("true_step", Value.dict [("result", Value.int 1)])]
            failed := []
            context := [("true_step", Value.int 1)]
            calls := [("true_step", "execute", [])]
            dispatched := [condT] } := by
      unfold runRounds
      rw [if_neg (by decide), hone]
      rfl
    unfold execute_workflow execute_workflow_from
    rw [hrun]
    rfl
  · intro ev h
    refine ⟨?_, by decide, by decide⟩
    have hexp : expandPhase ev (initState [condStepF]) =
        { pending := [condF]
          completed := []
          failed := []
          context := []
          calls := []
          dispatched := [] } := by
      show expandOne ev (initState [condStepF]) condStepF = _
      unfold expandOne
      rw [if_pos (show depsMet (initState [condStepF]).completed condStepF = true from rfl),
        show ((condStepF.when).getD "") = "1 == 2" from rfl,
        show (initState [condStepF]).context = ([] : List (String × Value)) from rfl, h]
      rfl
    have hone : oneRound agentsFix capFix ev (initState [condStepF]) =
        RoundOut.next
          { pending := []
            completed := [("false_step", Value.dict [("result", Value.int 1)])]
            failed := []
            context := [("false_step", Value.int 1)]
            calls := [("false_step", "execute", [])]
            dispatched := [condF] } := by
      unfold oneRound
      rw [hexp]
      rfl
    have hrun : runRounds agentsFix capFix ev 2 (initState [condStepF]) =
        RunResult.finished
          { pending := []
            completed := [("false_step", Value.dict [("result", Value.int 1)])]
            failed := []
            context := [("false_step", Value.int 1)]
            calls := [("false_step", "execute", [])]
            dispatched := [condF] } := by
      unfold runRounds
      rw [if_neg (by decide), hone]
      rfl
    unfold execute_workflow execute_workflow_from
    rw [hrun]
    rfl

theorem c6_witness :
    evC6 "1 == 1" [] = true ∧
    evC6 "1 == 2" [] = false ∧
    execute_workflow agentsFix capFix evC6 2 [condStepB] =
      Except.ok { status := "completed"
                  completed := [("true_step", Value.dict [("result", Value.int 1)])]
                  failed := [] } ∧
    execute_workflow agentsFix capFix evC6 2 [condStepF] =
      Except.ok { status := "completed"
                  completed := [("false_step", Value.dict [("result", Value.int 1)])]
                  failed := [] } :=
  ⟨rfl, rfl,
    (c6_conditional_expansion_general.2.2.2.2.1 evC6 rfl).1,
    (c6_conditional_expansion_general.2.2.2.2.2 evC6 rfl).1⟩
